import Mathlib

/-!
Verification of the record decoder of this repository (`src/record.rs`) against
its natural-language specification.

Bytes are modelled as natural numbers below 256, byte slices as `List Nat`.
Rust `i64` values are modelled as `Int` (with explicit two's-complement
reduction where a cast occurs). The decoder's two failure channels are kept
distinct, because they are observably different in the source:

* `nom` parser errors (`take`, `i8`, and the varint running out of bytes) are
  returned to the caller through `IResult` via the `?` operator — recoverable;
* Rust panics (`assert_eq!`, `.expect(..)`, `todo!`, `Option::unwrap`) abort
  the process — not recoverable.

Both are represented as `Except` error values carrying a `RecError`, and
`RecError.isRecoverable` records which channel a given error used.
-/

deriving instance DecidableEq for Except

namespace SqliteRecord

/-- A byte of the input, a natural number in `0 … 255`. -/
abbrev Byte := Nat

/-- A byte slice. -/
abbrev Bytes := List Byte

/-- Read a `w`-bit unsigned value `n` as a two's-complement signed integer. -/
def toSigned (w : Nat) (n : Nat) : Int :=
  if n < 2 ^ (w - 1) then (n : Int) else (n : Int) - 2 ^ w

/-- Rust `x as usize` applied to an `i64`: reduce modulo `2^64` to an
unsigned machine word, modelled as a natural number. -/
def asUsize (x : Int) : Nat := (x % 2 ^ 64).toNat

/-- The ways a record decode can fail in the source.

`incomplete` is the only error that the source returns to the caller
(a `nom` error propagated through `IResult` by `?`). All other variants
correspond to Rust panics in `Record::parse`:
`invalidColumnType` is the `.expect("invalid column type")` on tag
resolution, `sizeMismatch` is the `assert_eq!` on header byte accounting,
`unimplemented` is the `todo!(..)` arms for the wide column widths,
`invalidUtf8` is the `.expect("non utf-8 text")` on blob/text payloads,
and `unwrapNone` is `Option::unwrap` on a missing row id. -/
inductive RecError
  | incomplete
  | invalidColumnType
  | sizeMismatch
  | unimplemented (msg : String)
  | invalidUtf8
  | unwrapNone
deriving DecidableEq

/-- Whether a failure is returned to the caller as an error value
(`true`, the `nom` channel) or aborts the process as a Rust panic
(`false`). -/
def RecError.isRecoverable : RecError → Bool
  | .incomplete => true
  | _ => false

/-- Modelled from the spec: the variable-length integer decoder of
`crate::varint` (file `src/varint.rs`, which is not present under `src/`).
Spec §4.1: big-endian base-128 with 7 bits per byte and high-bit
continuation, self-terminating on a byte with the high bit clear, up to 9
encoded bytes (per the host format, a ninth byte contributes all 8 bits);
running out of bytes before the sequence terminates is a recoverable decode
error. The accumulator is the unsigned big-endian value built so far and
`i` counts bytes already consumed. -/
def varintAux : Bytes → Nat → Nat → Except RecError (Bytes × Nat)
  | [], _, _ => .error .incomplete
  | b :: rest, acc, i =>
    if i = 8 then .ok (rest, acc * 256 + b)
    else if b < 128 then .ok (rest, acc * 128 + b)
    else varintAux rest (acc * 128 + (b - 128)) (i + 1)

/-- Modelled from the spec: `varint` returns the decoded 64-bit value
(read as a signed `i64`) together with the unconsumed remainder. -/
def varint (input : Bytes) : Except RecError (Bytes × Int) :=
  match varintAux input 0 0 with
  | .error e => .error e
  | .ok (rest, n) => .ok (rest, toSigned 64 (n % 2 ^ 64))

/-- The serial-type tags of `record.rs` (`enum ColumnType`). -/
inductive ColumnType
  | null
  | i8
  | i16
  | i24
  | i32
  | i48
  | i64
  | f64
  | zero
  | one
  | blob (size : Nat)
  | text (size : Nat)
deriving DecidableEq

/-- Tag resolution, `impl TryFrom<i64> for ColumnType` in `record.rs`
(lines 126–151). Rust's `/` and `%` on `i64` truncate toward zero, hence
`Int.tdiv` and `Int.tmod`; the `as usize` cast wraps modulo `2^64`. -/
def ColumnType.tryFrom (value : Int) : Except RecError ColumnType :=
  if value = 0 then .ok .null
  else if value = 1 then .ok .i8
  else if value = 2 then .ok .i16
  else if value = 3 then .ok .i24
  else if value = 4 then .ok .i32
  else if value = 5 then .ok .i48
  else if value = 6 then .ok .i64
  else if value = 7 then .ok .f64
  else if value = 8 then .ok .zero
  else if value = 9 then .ok .one
  else if value = 10 ∨ value = 11 then .error .invalidColumnType
  else if Int.tmod value 2 = 0 then .ok (.blob (asUsize (Int.tdiv (value - 12) 2)))
  else .ok (.text (asUsize (Int.tdiv (value - 13) 2)))

/-- Model of an IEEE-754 binary64 payload, used only for the equality
semantics of `Value::Real` (no `Float64` column is ever decoded in the
source: that arm is `todo!`). IEEE-754 equality is captured exactly for
what the claims need: NaN compares unequal to everything, and two numeric
values compare equal exactly when they denote the same real number (the
two IEEE zeroes both denote `0` here). -/
inductive F64
  | nan
  | val (x : ℚ)
deriving DecidableEq

/-- IEEE-754 equality on the `F64` model. -/
def F64.beq : F64 → F64 → Bool
  | .nan, _ => false
  | _, .nan => false
  | .val a, .val b => decide (a = b)

/-- Decoded column values, `enum Value` in `record.rs`. Text and blob
payloads are kept as their byte content (Rust stores both as `String`,
whose `==` compares the underlying bytes). -/
inductive Value
  | null
  | integer (n : Int)
  | real (f : F64)
  | text (s : Bytes)
  | blob (s : Bytes)
deriving DecidableEq

/-- Value equality, `impl PartialEq for Value` in `record.rs` (lines
37–61): an outer match on `self`, an inner match on `other`, mirrored
arm for arm. -/
def Value.beq : Value → Value → Bool
  | .null, _ => false
  | .integer n1, other =>
    match other with
    | .integer n2 => decide (n1 = n2)
    | _ => false
  | .real f1, other =>
    match other with
    | .real f2 => F64.beq f1 f2
    | _ => false
  | .text s1, other =>
    match other with
    | .text s2 => decide (s1 = s2)
    | .blob s2 => decide (s1 = s2)
    | _ => false
  | .blob s1, other =>
    match other with
    | .text s2 => decide (s1 = s2)
    | .blob s2 => decide (s1 = s2)
    | _ => false

/-- Record kind, `enum RecordType` in `record.rs`. -/
inductive RecordType
  | table
  | index
deriving DecidableEq

/-- A continuation byte of a UTF-8 sequence (`10xxxxxx`). -/
def isCont (b : Byte) : Bool := decide (0x80 ≤ b ∧ b ≤ 0xBF)

/-- UTF-8 validity of a byte sequence, as checked by Rust's
`std::str::from_utf8`: strict UTF-8, rejecting overlong encodings,
surrogate code points and values above `U+10FFFF`. -/
def validUtf8 : Bytes → Bool
  | [] => true
  | b :: rest =>
    if b ≤ 0x7F then validUtf8 rest
    else if 0xC2 ≤ b ∧ b ≤ 0xDF then
      match rest with
      | b1 :: rest2 => isCont b1 && validUtf8 rest2
      | [] => false
    else if b = 0xE0 then
      match rest with
      | b1 :: b2 :: rest3 =>
        decide (0xA0 ≤ b1 ∧ b1 ≤ 0xBF) && isCont b2 && validUtf8 rest3
      | _ => false
    else if b = 0xED then
      match rest with
      | b1 :: b2 :: rest3 =>
        decide (0x80 ≤ b1 ∧ b1 ≤ 0x9F) && isCont b2 && validUtf8 rest3
      | _ => false
    else if (0xE1 ≤ b ∧ b ≤ 0xEC) ∨ (0xEE ≤ b ∧ b ≤ 0xEF) then
      match rest with
      | b1 :: b2 :: rest3 => isCont b1 && isCont b2 && validUtf8 rest3
      | _ => false
    else if b = 0xF0 then
      match rest with
      | b1 :: b2 :: b3 :: rest4 =>
        decide (0x90 ≤ b1 ∧ b1 ≤ 0xBF) && isCont b2 && isCont b3 && validUtf8 rest4
      | _ => false
    else if 0xF1 ≤ b ∧ b ≤ 0xF3 then
      match rest with
      | b1 :: b2 :: b3 :: rest4 =>
        isCont b1 && isCont b2 && isCont b3 && validUtf8 rest4
      | _ => false
    else if b = 0xF4 then
      match rest with
      | b1 :: b2 :: b3 :: rest4 =>
        decide (0x80 ≤ b1 ∧ b1 ≤ 0x8F) && isCont b2 && isCont b3 && validUtf8 rest4
      | _ => false
    else false

/-- nom's `take(n)` (complete variant): consume exactly `n` bytes,
returning `(remainder, taken)`, or fail with a recoverable error when
fewer than `n` bytes remain. -/
def nomTake (n : Nat) (input : Bytes) : Except RecError (Bytes × Bytes) :=
  if n ≤ input.length then .ok (input.drop n, input.take n) else .error .incomplete

/-- nom's `i8` (complete variant): consume one byte and read it as a
signed 8-bit integer, or fail with a recoverable error on empty input. -/
def nomI8 (input : Bytes) : Except RecError (Bytes × Int) :=
  match input with
  | [] => .error .incomplete
  | b :: rest => .ok (rest, toSigned 8 b)

/-- One arm of the payload loop of `Record::parse` (lines 190–264): decode
the payload of a single column from `rest`, given the record kind, the row
id decoded in the row-identifier stage, the column's name and its resolved
tag. Returns the remainder and the decoded value. The `from_be_bytes`
calls are written out as base-256 big-endian accumulation followed by a
two's-complement read at the Rust intermediate width (the `I24` arm feeds a
zero high byte into a 32-bit read, exactly as the source does). -/
def readColumn (recordType : RecordType) (rowId : Option Int) (columnName : String)
    (columnType : ColumnType) (rest : Bytes) : Except RecError (Bytes × Value) :=
  match columnType with
  | .null =>
    if recordType = .table ∧ columnName = "id" then
      match rowId with
      | some r => .ok (rest, .integer r)
      | none => .error .unwrapNone
    else .ok (rest, .null)
  | .i8 =>
    match nomI8 rest with
    | .error e => .error e
    | .ok (remainder, value) => .ok (remainder, .integer value)
  | .i16 =>
    match nomTake 2 rest with
    | .error e => .error e
    | .ok (remainder, bytes) =>
      .ok (remainder, .integer (toSigned 16 (bytes.getD 0 0 * 2 ^ 8 + bytes.getD 1 0)))
  | .i24 =>
    match nomTake 3 rest with
    | .error e => .error e
    | .ok (remainder, bytes) =>
      .ok (remainder, .integer (toSigned 32
        (0 * 2 ^ 24 + bytes.getD 0 0 * 2 ^ 16 + bytes.getD 1 0 * 2 ^ 8 + bytes.getD 2 0)))
  | .i32 =>
    match nomTake 4 rest with
    | .error e => .error e
    | .ok (remainder, bytes) =>
      .ok (remainder, .integer (toSigned 32
        (bytes.getD 0 0 * 2 ^ 24 + bytes.getD 1 0 * 2 ^ 16 + bytes.getD 2 0 * 2 ^ 8 +
          bytes.getD 3 0)))
  | .i48 => .error (.unimplemented "i48 column")
  | .i64 => .error (.unimplemented "i64 column")
  | .f64 => .error (.unimplemented "f64 column")
  | .zero => .ok (rest, .integer 0)
  | .one => .ok (rest, .integer 0)
  | .blob size =>
    match nomTake size rest with
    | .error e => .error e
    | .ok (remainder, bytes) =>
      if validUtf8 bytes then .ok (remainder, .blob bytes) else .error .invalidUtf8
  | .text size =>
    match nomTake size rest with
    | .error e => .error e
    | .ok (remainder, bytes) =>
      if validUtf8 bytes then .ok (remainder, .text bytes) else .error .invalidUtf8

/-- The payload loop of `Record::parse`: fold `readColumn` over the
name/tag pairs in column order, accumulating the name-to-value insertions
in order. -/
def parseColumns (recordType : RecordType) (rowId : Option Int) :
    List (String × ColumnType) → Bytes → List (String × Value) →
    Except RecError (Bytes × List (String × Value))
  | [], rest, values => .ok (rest, values)
  | (name, ct) :: cols, rest, values =>
    match readColumn recordType rowId name ct rest with
    | .error e => .error e
    | .ok (rest2, v) => parseColumns recordType rowId cols rest2 (values ++ [(name, v)])

/-- The header tag loop of `Record::parse` (lines 177–185): decode one
varint per remaining column, accumulate `header_bytes_read` by the length
difference of the slice, and resolve each value through
`ColumnType.tryFrom` (whose failure the source turns into a panic via
`expect`). Returns the remainder, the tags in order, and the accumulated
byte count. -/
def parseHeaderTags :
    Nat → Bytes → Nat → Except RecError (Bytes × List ColumnType × Nat)
  | 0, rest, consumed => .ok (rest, [], consumed)
  | n + 1, rest, consumed =>
    match varint rest with
    | .error e => .error e
    | .ok (remainder, v) =>
      match ColumnType.tryFrom v with
      | .error e => .error e
      | .ok ct =>
        match parseHeaderTags n remainder (consumed + (rest.length - remainder.length)) with
        | .error e => .error e
        | .ok (rest2, cts, consumed2) => .ok (rest2, ct :: cts, consumed2)

/-- Observation predicate on the header tag loop: asked for `k` more tags,
does the loop reach a tag whose varint decodes successfully but resolves to
a reserved serial-type value (the varints before it all decoding and
resolving to valid tags)? -/
def hitsInvalidTag : Nat → Bytes → Bool
  | 0, _ => false
  | k + 1, rest =>
    match varint rest with
    | .error _ => false
    | .ok (remainder, v) =>
      match ColumnType.tryFrom v with
      | .error _ => true
      | .ok _ => hitsInvalidTag k remainder

/-- The row-identifier stage of `Record::parse` (lines 165–170): a table
record starts with a varint row id; an index record has none. -/
def rowIdStage (recordType : RecordType) (input : Bytes) :
    Except RecError (Bytes × Option Int) :=
  match recordType with
  | .table =>
    match varint input with
    | .error e => .error e
    | .ok (rest, rowId) => .ok (rest, some rowId)
  | .index => .ok (input, none)

/-- The decoded record: the sequence of name-to-value insertions made by
`Record::parse` (the source inserts into a `HashMap`; column names are
unique by the caller's contract, so the insertion list determines the
map). -/
structure Record where
  values : List (String × Value)
deriving DecidableEq

/-- `Record::parse` (lines 160–268): row-identifier stage, header-size
varint, header tag loop, the `assert_eq!` comparing accumulated header
bytes with the declared header size (`as usize`), then the payload loop.
Returns the unconsumed remainder together with the record. -/
def Record.parse (input : Bytes) (columnNames : List String)
    (recordType : RecordType) : Except RecError (Bytes × Record) :=
  match rowIdStage recordType input with
  | .error e => .error e
  | .ok (input1, rowId) =>
    match varint input1 with
    | .error e => .error e
    | .ok (input2, headerSize) =>
      match parseHeaderTags columnNames.length input2 (input1.length - input2.length) with
      | .error e => .error e
      | .ok (rest, columnTypes, headerBytesRead) =>
        if headerBytesRead = asUsize headerSize then
          match parseColumns recordType rowId (columnNames.zip columnTypes) rest [] with
          | .error e => .error e
          | .ok (rest2, values) => .ok (rest2, ⟨values⟩)
        else .error .sizeMismatch

/-! ## Helper lemmas -/

theorem F64.beq_symm (a b : F64) : F64.beq a b = F64.beq b a := by
  cases a <;> cases b <;> simp [F64.beq, eq_comm]

/-- A two's-complement read of an in-range unsigned value lands in the
signed range and is congruent to the unsigned value modulo `2^(k+1)`. -/
theorem toSigned_spec (k n : Nat) (h : n < 2 ^ (k + 1)) :
    -(2 ^ k : Int) ≤ toSigned (k + 1) n ∧ toSigned (k + 1) n < 2 ^ k ∧
      (toSigned (k + 1) n - n) % 2 ^ (k + 1) = 0 := by
  have h2 : (2 : Int) ^ (k + 1) = 2 * 2 ^ k := by ring
  have hpos : (0 : Int) < 2 ^ k := by positivity
  have hcast : (n : Int) < 2 ^ (k + 1) := by exact_mod_cast h
  unfold toSigned
  simp only [Nat.add_sub_cancel]
  split
  case isTrue hlt =>
    have : (n : Int) < 2 ^ k := by exact_mod_cast hlt
    refine ⟨by omega, this, by simp⟩
  case isFalse hge =>
    have : (2 : Int) ^ k ≤ n := by
      have := Nat.le_of_not_lt hge
      exact_mod_cast this
    refine ⟨by omega, by omega, ?_⟩
    have : (n : Int) - n - 2 ^ (k + 1) = -(2 ^ (k + 1)) := by ring
    rw [show (n : Int) - 2 ^ (k + 1) - n = -(2 ^ (k + 1)) by ring]
    exact Int.emod_eq_zero_of_dvd ⟨-1, by ring⟩

theorem asUsize_of_nonneg_lt {x : Int} (h0 : 0 ≤ x) (h1 : x < 2 ^ 64) :
    asUsize x = x.toNat := by
  unfold asUsize
  rw [Int.emod_eq_of_lt h0 h1]

/-- The varint decoder can only fail by running out of bytes. -/
theorem varintAux_error (xs : Bytes) :
    ∀ (acc i : Nat) (e : RecError), varintAux xs acc i = .error e → e = .incomplete := by
  induction xs with
  | nil =>
    intro acc i e h
    simp only [varintAux, Except.error.injEq] at h
    exact h.symm
  | cons b t ih =>
    intro acc i e h
    simp only [varintAux] at h
    split at h
    · simp at h
    · split at h
      · simp at h
      · exact ih _ _ _ h

theorem varint_error (xs : Bytes) (e : RecError) (h : varint xs = .error e) :
    e = .incomplete := by
  unfold varint at h
  cases hv : varintAux xs 0 0 with
  | error e' =>
    rw [hv] at h
    simp only [Except.error.injEq] at h
    exact h ▸ varintAux_error xs 0 0 e' hv
  | ok p =>
    rw [hv] at h
    simp at h

theorem rowIdStage_error (rt : RecordType) (input : Bytes) (e : RecError)
    (h : rowIdStage rt input = .error e) : e = .incomplete := by
  cases rt <;> simp only [rowIdStage] at h
  · cases hv : varint input with
    | error e' =>
      rw [hv] at h
      simp only [Except.error.injEq] at h
      exact h ▸ varint_error input e' hv
    | ok p =>
      rw [hv] at h
      simp at h
  · simp at h

/-- Tag resolution succeeds on every value other than the two reserved
ones. -/
theorem tryFrom_isOk_of_ne (v : Int) (h10 : v ≠ 10) (h11 : v ≠ 11) :
    ∃ ct, ColumnType.tryFrom v = .ok ct := by
  by_cases h0 : v = 0
  · subst h0; exact ⟨.null, by decide⟩
  by_cases h1 : v = 1
  · subst h1; exact ⟨.i8, by decide⟩
  by_cases h2 : v = 2
  · subst h2; exact ⟨.i16, by decide⟩
  by_cases h3 : v = 3
  · subst h3; exact ⟨.i24, by decide⟩
  by_cases h4 : v = 4
  · subst h4; exact ⟨.i32, by decide⟩
  by_cases h5 : v = 5
  · subst h5; exact ⟨.i48, by decide⟩
  by_cases h6 : v = 6
  · subst h6; exact ⟨.i64, by decide⟩
  by_cases h7 : v = 7
  · subst h7; exact ⟨.f64, by decide⟩
  by_cases h8 : v = 8
  · subst h8; exact ⟨.zero, by decide⟩
  by_cases h9 : v = 9
  · subst h9; exact ⟨.one, by decide⟩
  by_cases he : Int.tmod v 2 = 0
  · refine ⟨.blob (asUsize (Int.tdiv (v - 12) 2)), ?_⟩
    unfold ColumnType.tryFrom
    rw [if_neg h0, if_neg h1, if_neg h2, if_neg h3, if_neg h4, if_neg h5, if_neg h6,
        if_neg h7, if_neg h8, if_neg h9, if_neg (show ¬(v = 10 ∨ v = 11) by tauto),
        if_pos he]
  · refine ⟨.text (asUsize (Int.tdiv (v - 13) 2)), ?_⟩
    unfold ColumnType.tryFrom
    rw [if_neg h0, if_neg h1, if_neg h2, if_neg h3, if_neg h4, if_neg h5, if_neg h6,
        if_neg h7, if_neg h8, if_neg h9, if_neg (show ¬(v = 10 ∨ v = 11) by tauto),
        if_neg he]

/-- Tag resolution fails exactly on the two reserved values, and the
failure is the one the source turns into the `expect` panic. -/
theorem tryFrom_error_iff (v : Int) (e : RecError) :
    ColumnType.tryFrom v = .error e ↔ e = .invalidColumnType ∧ (v = 10 ∨ v = 11) := by
  constructor
  · intro h
    by_cases hr : v = 10 ∨ v = 11
    · refine ⟨?_, hr⟩
      have hv : ColumnType.tryFrom v = .error .invalidColumnType := by
        rcases hr with rfl | rfl <;> decide
      rw [hv] at h
      injection h with h'
      exact h'.symm
    · obtain ⟨ct, hct⟩ :=
        tryFrom_isOk_of_ne v (fun hv => hr (Or.inl hv)) (fun hv => hr (Or.inr hv))
      rw [hct] at h
      exact absurd h (by simp)
  · rintro ⟨rfl, rfl | rfl⟩ <;> decide

theorem nomTake_error (n : Nat) (xs : Bytes) (e : RecError)
    (h : nomTake n xs = .error e) : e = .incomplete := by
  unfold nomTake at h
  split at h
  · simp at h
  · simp only [Except.error.injEq] at h
    exact h.symm

theorem nomI8_error (xs : Bytes) (e : RecError) (h : nomI8 xs = .error e) :
    e = .incomplete := by
  unfold nomI8 at h
  split at h
  · simp only [Except.error.injEq] at h
    exact h.symm
  · simp at h

/-- The header tag loop can only fail by running out of bytes or by
hitting a reserved tag value. -/
theorem parseHeaderTags_error :
    ∀ (k : Nat) (xs : Bytes) (c : Nat) (e : RecError),
      parseHeaderTags k xs c = .error e → e = .incomplete ∨ e = .invalidColumnType := by
  intro k
  induction k with
  | zero =>
    intro xs c e h
    simp [parseHeaderTags] at h
  | succ n ih =>
    intro xs c e h
    simp only [parseHeaderTags] at h
    split at h
    · rename_i e1 heq
      injection h with h'
      subst h'
      exact Or.inl (varint_error xs e1 heq)
    · rename_i rem v heq
      split at h
      · rename_i e1 heq2
        injection h with h'
        subst h'
        exact Or.inr ((tryFrom_error_iff v e1).mp heq2).1
      · rename_i ct heq2
        split at h
        · rename_i e1 heq3
          injection h with h'
          subst h'
          exact ih _ _ _ heq3
        · exact absurd h (by simp)

/-- A single payload column never fails with the size-mismatch or
invalid-tag failures: those belong to the header stage. -/
theorem readColumn_error (rt : RecordType) (rid : Option Int) (name : String)
    (ct : ColumnType) (rest : Bytes) (e : RecError)
    (h : readColumn rt rid name ct rest = .error e) :
    e ≠ .sizeMismatch ∧ e ≠ .invalidColumnType := by
  cases ct <;> simp only [readColumn] at h
  case null =>
    split at h
    · split at h
      · exact absurd h (by simp)
      · injection h with h'
        subst h'
        exact ⟨by decide, by decide⟩
    · exact absurd h (by simp)
  case i8 =>
    split at h
    · rename_i e1 heq
      injection h with h'
      subst h'
      rw [nomI8_error rest e1 heq]
      exact ⟨by decide, by decide⟩
    · exact absurd h (by simp)
  case i16 =>
    split at h
    · rename_i e1 heq
      injection h with h'
      subst h'
      rw [nomTake_error 2 rest e1 heq]
      exact ⟨by decide, by decide⟩
    · exact absurd h (by simp)
  case i24 =>
    split at h
    · rename_i e1 heq
      injection h with h'
      subst h'
      rw [nomTake_error 3 rest e1 heq]
      exact ⟨by decide, by decide⟩
    · exact absurd h (by simp)
  case i32 =>
    split at h
    · rename_i e1 heq
      injection h with h'
      subst h'
      rw [nomTake_error 4 rest e1 heq]
      exact ⟨by decide, by decide⟩
    · exact absurd h (by simp)
  case i48 =>
    injection h with h'
    subst h'
    exact ⟨by decide, by decide⟩
  case i64 =>
    injection h with h'
    subst h'
    exact ⟨by decide, by decide⟩
  case f64 =>
    injection h with h'
    subst h'
    exact ⟨by decide, by decide⟩
  case zero => exact absurd h (by simp)
  case one => exact absurd h (by simp)
  case blob size =>
    split at h
    · rename_i e1 heq
      injection h with h'
      subst h'
      rw [nomTake_error size rest e1 heq]
      exact ⟨by decide, by decide⟩
    · split at h
      · exact absurd h (by simp)
      · injection h with h'
        subst h'
        exact ⟨by decide, by decide⟩
  case text size =>
    split at h
    · rename_i e1 heq
      injection h with h'
      subst h'
      rw [nomTake_error size rest e1 heq]
      exact ⟨by decide, by decide⟩
    · split at h
      · exact absurd h (by simp)
      · injection h with h'
        subst h'
        exact ⟨by decide, by decide⟩

/-- The payload loop never fails with the size-mismatch or invalid-tag
failures. -/
theorem parseColumns_error :
    ∀ (cols : List (String × ColumnType)) (rt : RecordType) (rid : Option Int)
      (rest : Bytes) (acc : List (String × Value)) (e : RecError),
      parseColumns rt rid cols rest acc = .error e →
      e ≠ .sizeMismatch ∧ e ≠ .invalidColumnType := by
  intro cols
  induction cols with
  | nil =>
    intro rt rid rest acc e h
    simp [parseColumns] at h
  | cons p t ih =>
    intro rt rid rest acc e h
    obtain ⟨name, ct⟩ := p
    simp only [parseColumns] at h
    cases hc : readColumn rt rid name ct rest with
    | error e' =>
      rw [hc] at h
      simp only [Except.error.injEq] at h
      exact h ▸ readColumn_error rt rid name ct rest e' hc
    | ok q =>
      obtain ⟨r2, v⟩ := q
      rw [hc] at h
      exact ih _ _ _ _ _ h

/-- A successful varint decode consumes a definite byte sequence: it is a
prefix of the input, and replacing everything after that sequence leaves
the decode (and its value) unchanged. -/
theorem varintAux_consumes :
    ∀ (xs : Bytes) (acc i : Nat) (rest : Bytes) (n : Nat),
      varintAux xs acc i = .ok (rest, n) →
      ∃ pre, xs = pre ++ rest ∧ ∀ p, varintAux (pre ++ p) acc i = .ok (p, n) := by
  intro xs
  induction xs with
  | nil =>
    intro acc i rest n h
    simp [varintAux] at h
  | cons b t ih =>
    intro acc i rest n h
    simp only [varintAux] at h
    split at h
    · rename_i hi
      injection h with h'
      obtain ⟨rfl, rfl⟩ := Prod.mk.injEq .. ▸ Prod.mk.inj h'
      exact ⟨[b], rfl, fun p => by simp [varintAux, hi]⟩
    · rename_i hi
      split at h
      · rename_i hb
        injection h with h'
        obtain ⟨rfl, rfl⟩ := Prod.mk.injEq .. ▸ Prod.mk.inj h'
        exact ⟨[b], rfl, fun p => by simp [varintAux, hi, hb]⟩
      · rename_i hb
        obtain ⟨pre, hxs, hall⟩ := ih _ _ _ _ h
        refine ⟨b :: pre, by simp [hxs], fun p => ?_⟩
        simp only [List.cons_append, varintAux]
        rw [if_neg hi, if_neg hb]
        exact hall p

theorem varint_consumes (xs : Bytes) (rest : Bytes) (v : Int)
    (h : varint xs = .ok (rest, v)) :
    ∃ pre, xs = pre ++ rest ∧ ∀ p, varint (pre ++ p) = .ok (p, v) := by
  unfold varint at h
  split at h
  · exact absurd h (by simp)
  · rename_i rest1 n heq
    injection h with h'
    obtain ⟨rfl, rfl⟩ := Prod.mk.inj h'
    obtain ⟨pre, hxs, hall⟩ := varintAux_consumes _ _ _ _ _ heq
    exact ⟨pre, hxs, fun p => by unfold varint; rw [hall p]⟩

theorem rowIdStage_consumes (rt : RecordType) (input : Bytes) (input1 : Bytes)
    (rowId : Option Int) (h : rowIdStage rt input = .ok (input1, rowId)) :
    ∃ pre, input = pre ++ input1 ∧
      ∀ p, rowIdStage rt (pre ++ p) = .ok (p, rowId) := by
  cases rt <;> simp only [rowIdStage] at h
  · split at h
    · exact absurd h (by simp)
    · rename_i rest r heq
      injection h with h'
      obtain ⟨rfl, rfl⟩ := Prod.mk.inj h'
      obtain ⟨pre, hxs, hall⟩ := varint_consumes _ _ _ heq
      exact ⟨pre, hxs, fun p => by simp only [rowIdStage]; rw [hall p]⟩
  · injection h with h'
    obtain ⟨rfl, rfl⟩ := Prod.mk.inj h'
    exact ⟨[], rfl, fun p => rfl⟩

theorem parseHeaderTags_consumes :
    ∀ (k : Nat) (xs : Bytes) (c : Nat) (rest : Bytes) (cts : List ColumnType)
      (c' : Nat), parseHeaderTags k xs c = .ok (rest, cts, c') →
      ∃ pre, xs = pre ++ rest ∧
        ∀ p, parseHeaderTags k (pre ++ p) c = .ok (p, cts, c') := by
  intro k
  induction k with
  | zero =>
    intro xs c rest cts c' h
    simp only [parseHeaderTags] at h
    injection h with h'
    obtain ⟨rfl, h2⟩ := Prod.mk.inj h'
    obtain ⟨rfl, rfl⟩ := Prod.mk.inj h2
    exact ⟨[], rfl, fun p => rfl⟩
  | succ n ih =>
    intro xs c rest cts c' h
    simp only [parseHeaderTags] at h
    split at h
    · exact absurd h (by simp)
    · rename_i rem v heq
      split at h
      · exact absurd h (by simp)
      · rename_i ct heq2
        split at h
        · exact absurd h (by simp)
        · rename_i rest2 cts2 c2 heq3
          injection h with h'
          obtain ⟨rfl, h2⟩ := Prod.mk.inj h'
          obtain ⟨rfl, rfl⟩ := Prod.mk.inj h2
          obtain ⟨pre1, hxs1, hall1⟩ := varint_consumes _ _ _ heq
          obtain ⟨pre2, hxs2, hall2⟩ := ih _ _ _ _ _ heq3
          refine ⟨pre1 ++ pre2, by simp [hxs1, hxs2], fun p => ?_⟩
          have e1 : varint (pre1 ++ pre2 ++ p) = .ok (pre2 ++ p, v) := by
            rw [List.append_assoc]
            exact hall1 _
          have hlen : (pre1 ++ pre2 ++ p).length - (pre2 ++ p).length =
              xs.length - List.length rem := by
            subst hxs1 hxs2
            simp
          simp only [parseHeaderTags, e1, heq2, hlen, hall2 p]


/-- C2: serial-type tag resolution from an integer is total over all
non-negative integers except 10 and 11: 0 through 9 map to Null, Int8,
Int16, Int24, Int32, Int48, Int64, Float64, ConstZero, ConstOne
respectively; 10 and 11 yield the invalid-encoding failure; every even
value ≥ 12 yields Blob and every odd value ≥ 13 yields Text, in both
cases with byte length m pinned by the exact-arithmetic equation
m * 2 + 12 = v (resp. m * 2 + 13 = v), i.e. m = (v-12)/2
(resp. (v-13)/2) with no rounding. The length conjuncts carry the i64
range bound of the Rust domain. -/
theorem tag_resolution_total (v : Int) :
    (ColumnType.tryFrom 0 = .ok .null ∧ ColumnType.tryFrom 1 = .ok .i8 ∧
     ColumnType.tryFrom 2 = .ok .i16 ∧ ColumnType.tryFrom 3 = .ok .i24 ∧
     ColumnType.tryFrom 4 = .ok .i32 ∧ ColumnType.tryFrom 5 = .ok .i48 ∧
     ColumnType.tryFrom 6 = .ok .i64 ∧ ColumnType.tryFrom 7 = .ok .f64 ∧
     ColumnType.tryFrom 8 = .ok .zero ∧ ColumnType.tryFrom 9 = .ok .one) ∧
    (v = 10 ∨ v = 11 → ColumnType.tryFrom v = .error .invalidColumnType) ∧
    (0 ≤ v → v < 2 ^ 63 → 12 ≤ v → Int.tmod v 2 = 0 →
      ∃ m : Nat, ColumnType.tryFrom v = .ok (.blob m) ∧ (m : Int) * 2 + 12 = v) ∧
    (0 ≤ v → v < 2 ^ 63 → 13 ≤ v → Int.tmod v 2 = 1 →
      ∃ m : Nat, ColumnType.tryFrom v = .ok (.text m) ∧ (m : Int) * 2 + 13 = v) ∧
    (0 ≤ v → v ≠ 10 → v ≠ 11 → ∃ ct, ColumnType.tryFrom v = .ok ct) := by
  refine ⟨by decide, ?_, ?_, ?_, fun _ h10 h11 => tryFrom_isOk_of_ne v h10 h11⟩
  · rintro (rfl | rfl) <;> decide
  · intro h0 hlt h12 he
    have hmod : Int.tmod v 2 = v % 2 := Int.tmod_eq_emod h0 (by omega)
    have hForm : ColumnType.tryFrom v = .ok (.blob (asUsize (Int.tdiv (v - 12) 2))) := by
      unfold ColumnType.tryFrom
      rw [if_neg (by omega : ¬ v = 0), if_neg (by omega : ¬ v = 1),
          if_neg (by omega : ¬ v = 2), if_neg (by omega : ¬ v = 3),
          if_neg (by omega : ¬ v = 4), if_neg (by omega : ¬ v = 5),
          if_neg (by omega : ¬ v = 6), if_neg (by omega : ¬ v = 7),
          if_neg (by omega : ¬ v = 8), if_neg (by omega : ¬ v = 9),
          if_neg (by omega : ¬ (v = 10 ∨ v = 11)), if_pos he]
    refine ⟨asUsize (Int.tdiv (v - 12) 2), hForm, ?_⟩
    have hd : Int.tdiv (v - 12) 2 = (v - 12) / 2 := Int.tdiv_eq_ediv (by omega) (by omega)
    have hnn : (0 : Int) ≤ (v - 12) / 2 := by omega
    have hlt2 : (v - 12) / 2 < 2 ^ 64 := by omega
    rw [hd, asUsize_of_nonneg_lt hnn hlt2, Int.toNat_of_nonneg hnn]
    rw [hmod] at he
    omega
  · intro h0 hlt h13 he
    have hmod : Int.tmod v 2 = v % 2 := Int.tmod_eq_emod h0 (by omega)
    have hne : ¬ Int.tmod v 2 = 0 := by
      rw [hmod]
      rw [hmod] at he
      omega
    have hForm : ColumnType.tryFrom v = .ok (.text (asUsize (Int.tdiv (v - 13) 2))) := by
      unfold ColumnType.tryFrom
      rw [if_neg (by omega : ¬ v = 0), if_neg (by omega : ¬ v = 1),
          if_neg (by omega : ¬ v = 2), if_neg (by omega : ¬ v = 3),
          if_neg (by omega : ¬ v = 4), if_neg (by omega : ¬ v = 5),
          if_neg (by omega : ¬ v = 6), if_neg (by omega : ¬ v = 7),
          if_neg (by omega : ¬ v = 8), if_neg (by omega : ¬ v = 9),
          if_neg (by omega : ¬ (v = 10 ∨ v = 11)), if_neg hne]
    refine ⟨asUsize (Int.tdiv (v - 13) 2), hForm, ?_⟩
    have hd : Int.tdiv (v - 13) 2 = (v - 13) / 2 := Int.tdiv_eq_ediv (by omega) (by omega)
    have hnn : (0 : Int) ≤ (v - 13) / 2 := by omega
    have hlt2 : (v - 13) / 2 < 2 ^ 64 := by omega
    rw [hd, asUsize_of_nonneg_lt hnn hlt2, Int.toNat_of_nonneg hnn]
    rw [hmod] at he
    omega

/-- Witness for C2 at the concrete tag value 20 (an even value ≥ 12):
resolution yields Blob of length 4 = (20-12)/2. -/
theorem tag_resolution_total_witness :
    ∃ m : Nat, ColumnType.tryFrom 20 = .ok (.blob m) ∧ (m : Int) * 2 + 12 = 20 :=
  (tag_resolution_total 20).2.2.1 (by decide) (by decide) (by decide) (by decide)

/-- C4: value equality follows type-group rules: Null is equal to
nothing, in either position, including another Null; Text and Blob
payloads compare equal, in either order and within the same variant,
exactly when their contents are equal; an Integer is equal only to an
Integer with the same value and a Real only to a Real with an equal
numeric value; in particular Integer 5 does not equal Real 5.0. -/
theorem value_equality_type_groups :
    (∀ v : Value, Value.beq .null v = false) ∧
    (∀ v : Value, Value.beq v .null = false) ∧
    (∀ s1 s2 : Bytes,
      (Value.beq (.text s1) (.text s2) = true ↔ s1 = s2) ∧
      (Value.beq (.text s1) (.blob s2) = true ↔ s1 = s2) ∧
      (Value.beq (.blob s1) (.text s2) = true ↔ s1 = s2) ∧
      (Value.beq (.blob s1) (.blob s2) = true ↔ s1 = s2)) ∧
    (∀ (n : Int) (v : Value), Value.beq (.integer n) v = true ↔ v = .integer n) ∧
    (∀ (f : F64) (v : Value),
      Value.beq (.real f) v = true ↔ ∃ g, v = .real g ∧ F64.beq f g = true) ∧
    Value.beq (.integer 5) (.real (.val 5)) = false := by
  refine ⟨fun v => rfl, ?_, ?_, ?_, ?_, rfl⟩
  · intro v; cases v <;> rfl
  · intro s1 s2
    refine ⟨?_, ?_, ?_, ?_⟩ <;> simp [Value.beq]
  · intro n v
    cases v <;> simp [Value.beq, eq_comm]
  · intro f v
    cases v <;> simp [Value.beq]

/-- C10: value equality as implemented is symmetric: for every pair of
values a and b, a == b holds if and only if b == a (the Text/Blob
cross-variant comparison and all other arms are symmetric). -/
theorem value_beq_symm (a b : Value) : Value.beq a b = Value.beq b a := by
  cases a <;> cases b <;>
    first
      | rfl
      | exact F64.beq_symm ..
      | (simp only [Value.beq]; exact decide_eq_decide.mpr eq_comm)

/-- C6: for every column with tag ConstZero and for every column with
tag ConstOne, no payload bytes are consumed (the remainder is returned
unchanged) and the decoded value is Integer 0 in both cases. -/
theorem const_columns_decode_zero (rt : RecordType) (rid : Option Int)
    (name : String) (rest : Bytes) :
    readColumn rt rid name .zero rest = .ok (rest, .integer 0) ∧
    readColumn rt rid name .one rest = .ok (rest, .integer 0) :=
  ⟨rfl, rfl⟩

/-- C7 (amended): for every record containing a column with tag Int48,
Int64 or Float64, the decode never produces a value for that column and
never silently treats it as zero: it fails with the `todo!` panic
carrying a distinguishable "not yet implemented" message naming the
column width. In the source this failure is a process-terminating panic,
not a recoverable error returned to the caller. -/
theorem unimplemented_width_behavior :
    (∀ (rt : RecordType) (rid : Option Int) (name : String) (rest : Bytes),
      readColumn rt rid name .i48 rest = .error (.unimplemented "i48 column") ∧
      readColumn rt rid name .i64 rest = .error (.unimplemented "i64 column") ∧
      readColumn rt rid name .f64 rest = .error (.unimplemented "f64 column")) ∧
    RecError.isRecoverable (.unimplemented "i48 column") = false ∧
    RecError.isRecoverable (.unimplemented "i64 column") = false ∧
    RecError.isRecoverable (.unimplemented "f64 column") = false :=
  ⟨fun _ _ _ _ => ⟨rfl, rfl, rfl⟩, rfl, rfl, rfl⟩

/-- C7 counterexample: a concrete index record with a single Int48 column
(header size 2, tag 5) makes the decode fail with the unimplemented-width
panic, which is not a recoverable error value — refuting the claim that
the decode surfaces a recoverable "unsupported column width" error rather
than crashing the process. -/
theorem unimplemented_width_cex :
    Record.parse [2, 5] ["a"] .index = .error (.unimplemented "i48 column") ∧
    RecError.isRecoverable (.unimplemented "i48 column") = false :=
  ⟨by decide, rfl⟩

/-- C8: for every record in which a column's resolved tag declares a Blob
or Text byte length n but fewer than n bytes remain, the decode fails with
the recoverable truncated-input error surfaced to the caller and never
returns a partial or zero-filled value; concretely, an index record whose
tag decodes to Blob(4) with only two payload bytes remaining fails with
the truncated-input error. -/
theorem truncated_blob_text :
    (∀ (rt : RecordType) (rid : Option Int) (name : String) (n : Nat) (rest : Bytes),
      rest.length < n →
      readColumn rt rid name (.blob n) rest = .error .incomplete ∧
      readColumn rt rid name (.text n) rest = .error .incomplete) ∧
    RecError.isRecoverable .incomplete = true ∧
    Record.parse [2, 20, 97, 97] ["a"] .index = .error .incomplete := by
  refine ⟨?_, rfl, by decide⟩
  intro rt rid name n rest h
  have hn : ¬ n ≤ rest.length := by omega
  constructor <;> simp [readColumn, nomTake, hn]

/-- Witness for C8 at a concrete truncated input: Blob(4) and Text(4)
against a two-byte remainder both fail with the truncated-input error. -/
theorem truncated_blob_text_witness :
    readColumn .index none "a" (.blob 4) [97, 97] = .error .incomplete ∧
    readColumn .index none "a" (.text 4) [97, 97] = .error .incomplete :=
  truncated_blob_text.1 .index none "a" 4 [97, 97] (by decide)

/-- C3: for every column whose serial-type tag is Null the decoded value
is Null, except when the record kind is Table and the column's name is
exactly "id", in which case the decoded value is Integer holding the row
identifier decoded at the start of the record; in particular a Table
record with column names ["id", "name"], header tags [Null, Text(3)], row
identifier 7 and payload bytes "bob" decodes to
{"id": Integer 7, "name": Text "bob"} with no remainder. -/
theorem null_tag_rowid_alias :
    (∀ (r : Int) (rest : Bytes),
      readColumn .table (some r) "id" .null rest = .ok (rest, .integer r)) ∧
    (∀ (rt : RecordType) (rid : Option Int) (name : String) (rest : Bytes),
      ¬(rt = .table ∧ name = "id") →
      readColumn rt rid name .null rest = .ok (rest, .null)) ∧
    Record.parse [7, 3, 0, 19, 98, 111, 98] ["id", "name"] .table =
      .ok ([], ⟨[("id", .integer 7), ("name", .text [98, 111, 98])]⟩) := by
  refine ⟨?_, ?_, by decide⟩
  · intro r rest
    simp [readColumn]
  · intro rt rid name rest h
    simp [readColumn, h]

/-- Witness for C3's general Null arm at a concrete non-aliasing input:
an index record's "id" column under a Null tag decodes to Null. -/
theorem null_tag_rowid_alias_witness :
    readColumn .index none "id" .null [] = .ok ([], .null) :=
  null_tag_rowid_alias.2.1 .index none "id" [] (by decide)

/-- C5: for every column with tag Int8, Int16 or Int32 the decoded value
is the payload bytes read as a big-endian two's-complement integer
sign-extended to 64 bits (characterised as the unique integer in the
signed range of the width that is congruent to the unsigned big-endian
value modulo 2^width); for every column with tag Int24 the three payload
bytes go through a 32-bit intermediate with a zero high byte, so the
decoded value is always the non-negative unsigned 24-bit big-endian value
and is never the correct sign extension for negative 24-bit values (any
integer in the signed 24-bit range differs from it when the high bit is
set); and the Int8 payload byte 0xFF in an index record decodes
end-to-end to Integer (-1). -/
theorem fixed_width_int_decode :
    (∀ (rt : RecordType) (rid : Option Int) (name : String) (b0 : Nat) (rest : Bytes),
      b0 < 256 →
      ∃ w : Int, readColumn rt rid name .i8 (b0 :: rest) = .ok (rest, .integer w) ∧
        -(2 ^ 7 : Int) ≤ w ∧ w < 2 ^ 7 ∧ (w - (b0 : Int)) % 2 ^ 8 = 0) ∧
    (∀ (rt : RecordType) (rid : Option Int) (name : String) (b0 b1 : Nat)
      (rest : Bytes), b0 < 256 → b1 < 256 →
      ∃ w : Int, readColumn rt rid name .i16 (b0 :: b1 :: rest) =
          .ok (rest, .integer w) ∧
        -(2 ^ 15 : Int) ≤ w ∧ w < 2 ^ 15 ∧
        (w - ((b0 * 2 ^ 8 + b1 : Nat) : Int)) % 2 ^ 16 = 0) ∧
    (∀ (rt : RecordType) (rid : Option Int) (name : String) (b0 b1 b2 b3 : Nat)
      (rest : Bytes), b0 < 256 → b1 < 256 → b2 < 256 → b3 < 256 →
      ∃ w : Int, readColumn rt rid name .i32 (b0 :: b1 :: b2 :: b3 :: rest) =
          .ok (rest, .integer w) ∧
        -(2 ^ 31 : Int) ≤ w ∧ w < 2 ^ 31 ∧
        (w - ((b0 * 2 ^ 24 + b1 * 2 ^ 16 + b2 * 2 ^ 8 + b3 : Nat) : Int)) % 2 ^ 32 = 0) ∧
    (∀ (rt : RecordType) (rid : Option Int) (name : String) (b0 b1 b2 : Nat)
      (rest : Bytes), b0 < 256 → b1 < 256 → b2 < 256 →
      readColumn rt rid name .i24 (b0 :: b1 :: b2 :: rest) =
        .ok (rest, .integer ((b0 * 2 ^ 16 + b1 * 2 ^ 8 + b2 : Nat) : Int)) ∧
      (0 : Int) ≤ ((b0 * 2 ^ 16 + b1 * 2 ^ 8 + b2 : Nat) : Int) ∧
      (∀ w : Int, 2 ^ 23 ≤ b0 * 2 ^ 16 + b1 * 2 ^ 8 + b2 →
        -(2 ^ 23 : Int) ≤ w → w < 2 ^ 23 →
        ((b0 * 2 ^ 16 + b1 * 2 ^ 8 + b2 : Nat) : Int) ≠ w)) ∧
    Record.parse [2, 1, 255] ["key"] .index = .ok ([], ⟨[("key", .integer (-1))]⟩) := by
  refine ⟨?_, ?_, ?_, ?_, by decide⟩
  · intro rt rid name b0 rest hb
    refine ⟨toSigned 8 b0, rfl, ?_⟩
    exact toSigned_spec 7 b0 (by omega)
  · intro rt rid name b0 b1 rest hb0 hb1
    have h2 : nomTake 2 (b0 :: b1 :: rest) = .ok (rest, [b0, b1]) := by
      simp [nomTake]
    refine ⟨toSigned 16 (b0 * 2 ^ 8 + b1), ?_, ?_⟩
    · simp [readColumn, h2, List.getD]
    · exact toSigned_spec 15 (b0 * 2 ^ 8 + b1) (by omega)
  · intro rt rid name b0 b1 b2 b3 rest hb0 hb1 hb2 hb3
    have h4 : nomTake 4 (b0 :: b1 :: b2 :: b3 :: rest) = .ok (rest, [b0, b1, b2, b3]) := by
      simp [nomTake]
    refine ⟨toSigned 32 (b0 * 2 ^ 24 + b1 * 2 ^ 16 + b2 * 2 ^ 8 + b3), ?_, ?_⟩
    · simp [readColumn, h4, List.getD]
    · exact toSigned_spec 31 (b0 * 2 ^ 24 + b1 * 2 ^ 16 + b2 * 2 ^ 8 + b3) (by omega)
  · intro rt rid name b0 b1 b2 rest hb0 hb1 hb2
    have h3 : nomTake 3 (b0 :: b1 :: b2 :: rest) = .ok (rest, [b0, b1, b2]) := by
      simp [nomTake]
    refine ⟨?_, by positivity, ?_⟩
    · have hm : 0 * 2 ^ 24 + b0 * 2 ^ 16 + b1 * 2 ^ 8 + b2 < 2 ^ 31 := by omega
      simp [readColumn, h3, List.getD, toSigned, hm]
      omega
    · intro w hm hw1 hw2
      omega

/-- Witness for C5 at the concrete Int8 payload byte 0xFF: the decoded
value lies in the signed 8-bit range and is congruent to 255 modulo 256
(hence equals -1). -/
theorem fixed_width_int_decode_witness :
    ∃ w : Int, readColumn .index none "key" .i8 (255 :: []) = .ok ([], .integer w) ∧
      -(2 ^ 7 : Int) ≤ w ∧ w < 2 ^ 7 ∧ (w - ((255 : Nat) : Int)) % 2 ^ 8 = 0 :=
  fixed_width_int_decode.1 .index none "key" 255 [] (by decide)

/-- The header tag loop fails with the invalid-column-type failure
exactly when it reaches a tag whose varint decodes to a reserved
serial-type value. -/
theorem parseHeaderTags_invalid_iff :
    ∀ (k : Nat) (xs : Bytes) (c : Nat),
      parseHeaderTags k xs c = .error .invalidColumnType ↔ hitsInvalidTag k xs = true := by
  intro k
  induction k with
  | zero =>
    intro xs c
    simp [parseHeaderTags, hitsInvalidTag]
  | succ n ih =>
    intro xs c
    simp only [parseHeaderTags, hitsInvalidTag]
    cases hv : varint xs with
    | error e =>
      have he := varint_error xs e hv
      subst he
      simp [hv]
    | ok p =>
      obtain ⟨rem, v⟩ := p
      simp only [hv]
      cases ht : ColumnType.tryFrom v with
      | error e' =>
        have he' := ((tryFrom_error_iff v e').mp ht).1
        subst he'
        simp [ht]
      | ok ct =>
        simp only [ht]
        cases hr : parseHeaderTags n rem (c + (xs.length - rem.length)) with
        | error e2 =>
          simp only [hr]
          constructor
          · intro hh
            injection hh with hh'
            subst hh'
            exact (ih rem (c + (xs.length - rem.length))).mp hr
          · intro hh
            have := (ih rem (c + (xs.length - rem.length))).mpr hh
            rw [this] at hr
            injection hr with hr'
            rw [hr']
        | ok t =>
          obtain ⟨r2, cts2, c2⟩ := t
          simp only [hr]
          constructor
          · intro hh
            exact absurd hh (by simp)
          · intro hh
            have := (ih rem (c + (xs.length - rem.length))).mpr hh
            rw [this] at hr
            exact absurd hr (by simp)

/-- C9 (amended): for every record whose header reaches a serial-type tag
integer equal to 10 or 11 while decoding its N tags, the record decode
fails with the invalid-column-type failure — in the source a panic raised
by `expect` on the tag-resolution error, fatal for the record but
process-terminating rather than a recoverable error value, and never
defaulted to any value. The failure occurs if and only if such a tag is
reached. -/
theorem invalid_tag_behavior :
    (∀ v : Int, ColumnType.tryFrom v = .error .invalidColumnType ↔ (v = 10 ∨ v = 11)) ∧
    (∀ (k : Nat) (xs : Bytes) (c : Nat),
      parseHeaderTags k xs c = .error .invalidColumnType ↔ hitsInvalidTag k xs = true) ∧
    (∀ (input : Bytes) (names : List String) (rt : RecordType),
      Record.parse input names rt = .error .invalidColumnType ↔
      ∃ input1 rowId input2 hs,
        rowIdStage rt input = .ok (input1, rowId) ∧
        varint input1 = .ok (input2, hs) ∧
        hitsInvalidTag names.length input2 = true) ∧
    RecError.isRecoverable .invalidColumnType = false := by
  refine ⟨?_, parseHeaderTags_invalid_iff, ?_, rfl⟩
  · intro v
    constructor
    · intro h
      exact ((tryFrom_error_iff v _).mp h).2
    · intro h
      exact (tryFrom_error_iff v _).mpr ⟨rfl, h⟩
  · intro input names rt
    constructor
    · intro h
      unfold Record.parse at h
      split at h
      · rename_i e heq
        injection h with h'
        subst h'
        exact absurd (rowIdStage_error _ _ _ heq) (by decide)
      · rename_i input1 rowId heq1
        split at h
        · rename_i e heq2
          injection h with h'
          subst h'
          exact absurd (varint_error _ _ heq2) (by decide)
        · rename_i input2 hs heq2
          split at h
          · rename_i e heq3
            injection h with h'
            subst h'
            exact ⟨input1, rowId, input2, hs, heq1, heq2,
              (parseHeaderTags_invalid_iff _ _ _).mp heq3⟩
          · rename_i rest cts consumed heq3
            split at h
            · split at h
              · rename_i e heq4
                injection h with h'
                subst h'
                exact absurd rfl (parseColumns_error _ _ _ _ _ _ heq4).2
              · exact absurd h (by simp)
            · injection h with h'
              exact absurd h' (by decide)
    · rintro ⟨input1, rowId, input2, hs, heq1, heq2, hhits⟩
      have h3 : parseHeaderTags names.length input2 (input1.length - input2.length) =
          .error .invalidColumnType := (parseHeaderTags_invalid_iff _ _ _).mpr hhits
      unfold Record.parse
      simp only [heq1, heq2, h3]

/-- C9 counterexample: a concrete index record whose single header tag is
10 (header size 2) makes the decode fail with the invalid-column-type
failure, which is not a recoverable error value — refuting the claim that
the failure is a typed, recoverable error propagated to the caller
without terminating the process. -/
theorem invalid_tag_cex :
    Record.parse [2, 10] ["a"] .index = .error .invalidColumnType ∧
    RecError.isRecoverable .invalidColumnType = false :=
  ⟨by decide, rfl⟩

/-- Forward decomposition of a size-mismatch failure. -/
theorem parse_sizeMismatch_decompose (input : Bytes) (names : List String)
    (rt : RecordType) (h : Record.parse input names rt = .error .sizeMismatch) :
    ∃ input1 rowId input2 hs rest cts consumed,
      rowIdStage rt input = .ok (input1, rowId) ∧
      varint input1 = .ok (input2, hs) ∧
      parseHeaderTags names.length input2 (input1.length - input2.length) =
        .ok (rest, cts, consumed) ∧
      consumed ≠ asUsize hs := by
  unfold Record.parse at h
  split at h
  · rename_i e heq
    injection h with h'
    subst h'
    exact absurd (rowIdStage_error _ _ _ heq) (by decide)
  · rename_i input1 rowId heq1
    split at h
    · rename_i e heq2
      injection h with h'
      subst h'
      exact absurd (varint_error _ _ heq2) (by decide)
    · rename_i input2 hs heq2
      split at h
      · rename_i e heq3
        injection h with h'
        subst h'
        rcases parseHeaderTags_error _ _ _ _ heq3 with h2 | h2 <;> exact absurd h2 (by decide)
      · rename_i rest cts consumed heq3
        split at h
        · split at h
          · rename_i e heq4
            injection h with h'
            subst h'
            exact absurd rfl (parseColumns_error _ _ _ _ _ _ heq4).1
          · exact absurd h (by simp)
        · rename_i hne
          exact ⟨input1, rowId, input2, hs, rest, cts, consumed, heq1, heq2, heq3, hne⟩

/-- Backward composition: a mismatching header accounting produces the
size-mismatch failure. -/
theorem parse_sizeMismatch_compose (input : Bytes) (names : List String)
    (rt : RecordType) (input1 : Bytes) (rowId : Option Int) (input2 : Bytes)
    (hs : Int) (rest : Bytes) (cts : List ColumnType) (consumed : Nat)
    (h1 : rowIdStage rt input = .ok (input1, rowId))
    (h2 : varint input1 = .ok (input2, hs))
    (h3 : parseHeaderTags names.length input2 (input1.length - input2.length) =
      .ok (rest, cts, consumed))
    (h4 : consumed ≠ asUsize hs) :
    Record.parse input names rt = .error .sizeMismatch := by
  unfold Record.parse
  simp only [h1, h2, h3]
  rw [if_neg h4]

/-- C1 (amended): the record decode fails with the size-mismatch failure
if and only if the row-identifier stage and the header-size varint
succeed, all N tag varints decode and resolve to valid serial types, and
the bytes consumed decoding the N tags plus the byte-length of the
header-size field itself (the accumulated header count) differ from the
declared header size; and whenever it fails for this reason, it fails
before any payload byte is read: the input splits into a header part and
a remainder such that replacing the remainder by any payload bytes
whatsoever still produces the same size-mismatch failure. -/
theorem size_mismatch_accounting :
    (∀ (input : Bytes) (names : List String) (rt : RecordType),
      Record.parse input names rt = .error .sizeMismatch ↔
      ∃ input1 rowId input2 hs rest cts consumed,
        rowIdStage rt input = .ok (input1, rowId) ∧
        varint input1 = .ok (input2, hs) ∧
        parseHeaderTags names.length input2 (input1.length - input2.length) =
          .ok (rest, cts, consumed) ∧
        consumed ≠ asUsize hs) ∧
    (∀ (input : Bytes) (names : List String) (rt : RecordType),
      Record.parse input names rt = .error .sizeMismatch →
      ∃ hdr rest, input = hdr ++ rest ∧
        ∀ p : Bytes, Record.parse (hdr ++ p) names rt = .error .sizeMismatch) := by
  constructor
  · intro input names rt
    constructor
    · exact parse_sizeMismatch_decompose input names rt
    · rintro ⟨input1, rowId, input2, hs, rest, cts, consumed, h1, h2, h3, h4⟩
      exact parse_sizeMismatch_compose input names rt input1 rowId input2 hs rest cts
        consumed h1 h2 h3 h4
  · intro input names rt h
    obtain ⟨input1, rowId, input2, hs, rest, cts, consumed, heq1, heq2, heq3, hne⟩ :=
      parse_sizeMismatch_decompose input names rt h
    obtain ⟨pre0, hx0, hall0⟩ := rowIdStage_consumes rt input input1 rowId heq1
    obtain ⟨pre1, hx1, hall1⟩ := varint_consumes input1 input2 hs heq2
    obtain ⟨pre2, hx2, hall2⟩ := parseHeaderTags_consumes _ _ _ _ _ _ heq3
    refine ⟨pre0 ++ pre1 ++ pre2, rest, by simp [hx0, hx1, hx2], fun p => ?_⟩
    have e0 : rowIdStage rt (pre0 ++ pre1 ++ pre2 ++ p) = .ok (pre1 ++ pre2 ++ p, rowId) := by
      have := hall0 (pre1 ++ (pre2 ++ p))
      simpa [List.append_assoc] using this
    have e1 : varint (pre1 ++ pre2 ++ p) = .ok (pre2 ++ p, hs) := by
      have := hall1 (pre2 ++ p)
      simpa [List.append_assoc] using this
    have e2 : parseHeaderTags names.length (pre2 ++ p)
        ((pre1 ++ pre2 ++ p).length - (pre2 ++ p).length) = .ok (p, cts, consumed) := by
      have hlen : (pre1 ++ pre2 ++ p).length - (pre2 ++ p).length =
          input1.length - input2.length := by
        subst hx1 hx2
        simp
      rw [hlen]
      exact hall2 p
    exact parse_sizeMismatch_compose (pre0 ++ pre1 ++ pre2 ++ p) names rt
      (pre1 ++ pre2 ++ p) rowId (pre2 ++ p) hs p cts consumed e0 e1 e2 hne

/-- Witness for C1's payload-independence part at a concrete mismatching
header (declared size 3, actual header bytes 2): the failure persists for
every payload. -/
theorem size_mismatch_accounting_witness :
    ∃ hdr rest, ([3, 0] : Bytes) = hdr ++ rest ∧
      ∀ p : Bytes, Record.parse (hdr ++ p) ["a"] .index = .error .sizeMismatch :=
  size_mismatch_accounting.2 [3, 0] ["a"] .index (by decide)

/-- C1 counterexample: with a single column and input bytes [3, 10], the
header-size field (1 byte) plus the single tag varint (1 byte) total
2 ≠ 3 declared, so the claim's right-hand side holds, yet the decode
fails with the invalid-column-type failure (tag 10 is resolved, and its
`expect` panic fires inside the tag loop, before the size assertion) and
not with the size-mismatch failure — refuting the claimed "if and only
if". -/
theorem size_mismatch_claim_cex :
    Record.parse [3, 10] ["a"] .index = .error .invalidColumnType ∧
    RecError.invalidColumnType ≠ RecError.sizeMismatch ∧
    varint [3, 10] = .ok ([10], 3) ∧
    varint [10] = .ok ([], 10) ∧
    (([3, 10] : Bytes).length - ([10] : Bytes).length) +
      (([10] : Bytes).length - ([] : Bytes).length) ≠ asUsize 3 :=
  ⟨by decide, by decide, by decide, by decide, by decide⟩

end SqliteRecord
